import Mathlib

/-!
Verification of the interaction-extraction pipeline of `backend/data_loader.py`
(`parse_interactions` and the persistence step of `load_drugbank_data`).

Strings are modelled as `List Char`.  The Python regex character classes
`\w`, `\d`, `\s` are modelled over their ASCII parts (plus the em dash,
which the source handles explicitly); every concrete input considered here
is ASCII apart from the em dash.
-/

namespace Polypharm

/-- Strings of the source program, modelled as lists of characters. -/
abbrev Str := List Char

/-- Model of the regex class `\s` (whitespace), restricted to ASCII. -/
def isSpace (c : Char) : Bool :=
  decide (c = ' ' ∨ c = '\t' ∨ c = '\n' ∨ c = '\r' ∨ c = '\x0b' ∨ c = '\x0c')

/-- Model of the regex class `\w` (word character), restricted to ASCII:
letters, digits and underscore. -/
def isWordChar (c : Char) : Bool := c.isAlphanum || c = '_'

/-- Python `str.strip()`: drop whitespace on both ends. -/
def strip (s : Str) : Str :=
  ((s.dropWhile isSpace).reverse.dropWhile isSpace).reverse

/-- The hard chunk separators of `re.split(r'[;\n]|\|', text)`
(data_loader.py line 122): semicolon, line break, vertical bar. -/
def hardSep (c : Char) : Bool := decide (c = ';' ∨ c = '\n' ∨ c = '|')

/-- Splitting a string at every character satisfying `p`
(the separator characters are consumed); returns the first field and the
remaining fields. -/
def splitCharsAux (p : Char → Bool) : Str → Str × List Str
  | [] => ([], [])
  | c :: rest =>
    let r := splitCharsAux p rest
    if p c then ([], r.1 :: r.2) else (c :: r.1, r.2)

/-- Model of `re.split` on a single-character alternation class. -/
def splitChars (p : Char → Bool) (t : Str) : List Str :=
  (splitCharsAux p t).1 :: (splitCharsAux p t).2

/-- The lookahead `(?=\s*DB\d+)` of data_loader.py line 126: optional
whitespace, then the two uppercase letters `DB` (this inline pattern is
compiled without `re.IGNORECASE`), then at least one digit.  Greedy `\s*`
followed by a literal `D` is equivalent to dropping all whitespace first. -/
def commaLookahead (s : Str) : Bool :=
  match s.dropWhile isSpace with
  | 'D' :: 'B' :: c :: _ => c.isDigit
  | _ => false

/-- Model of `re.split(r',(?=\s*DB\d+)', text)` (line 126): split at every
comma whose suffix satisfies `commaLookahead`; returns the first field and
the remaining fields. -/
def splitCommaAux : Str → Str × List Str
  | [] => ([], [])
  | c :: rest =>
    let r := splitCommaAux rest
    if c = ',' ∧ commaLookahead rest then ([], r.1 :: r.2) else (c :: r.1, r.2)

/-- The comma re-split of the Chunker (line 126). -/
def splitCommaDB (t : Str) : List Str :=
  (splitCommaAux t).1 :: (splitCommaAux t).2

/-- The chunk list computed at lines 122-126: split on hard separators; if
that yields exactly one chunk, re-split on guarded commas instead. -/
def chunksOf (text : Str) : List Str :=
  let chunks := splitChars hardSep text
  if chunks.length = 1 then splitCommaDB text else chunks

/-- Check that the position after a candidate identifier is a word
boundary: end of string or a non-word character. -/
def boundaryAfter : Str → Bool
  | [] => true
  | c :: _ => !isWordChar c

/-- Attempt to match `DB\d+\b` (with `re.IGNORECASE`) at the head of the
string: `D`/`d`, `B`/`b`, a maximal nonempty digit run, then a word
boundary.  (Backtracking the greedy `\d+` cannot help, because any shorter
digit run is followed by a digit, which is a word character.) -/
def idHeadMatch : Str → Option Str
  | c1 :: c2 :: rest2 =>
    if (c1 = 'D' ∨ c1 = 'd') ∧ (c2 = 'B' ∨ c2 = 'b') ∧
        rest2.takeWhile Char.isDigit ≠ [] ∧
        boundaryAfter (rest2.dropWhile Char.isDigit) then
      some (c1 :: c2 :: rest2.takeWhile Char.isDigit)
    else none
  | _ => none

/-- Left-to-right scan of `id_pattern.findall` for
`re.compile(r'\bDB\d+\b', flags=re.IGNORECASE)` (line 111).  `prevWord`
records whether the previous character is a word character (the `\b`
test).  Scanning character by character is equivalent to resuming after a
match, because every character inside a match is a word character and none
of them except the first can start a match. -/
def findIdsAux : Bool → Str → List Str
  | _, [] => []
  | prevWord, c1 :: rest =>
    match (if prevWord then none else idHeadMatch (c1 :: rest)) with
    | some m => m :: findIdsAux true rest
    | none => findIdsAux (isWordChar c1) rest

/-- All matches of the identifier pattern `\bDB\d+\b` (case-insensitive),
in order of appearance; `findIds s |>.headD s` models `id_pattern.search`. -/
def findIds (s : Str) : List Str := findIdsAux false s

/-- Whether a whole string is an identifier token: `D`/`d`, `B`/`b`, then
one or more digits. -/
def isIdToken : Str → Bool
  | c1 :: c2 :: ds =>
    decide ((c1 = 'D' ∨ c1 = 'd') ∧ (c2 = 'B' ∨ c2 = 'b') ∧ ds ≠ [] ∧
      ∀ c ∈ ds, Char.isDigit c)
  | _ => false

/-- Python `chunk.split(':', 1)` when a colon is present: the part before
the first colon and the part after it. -/
def splitColon : Str → Str × Str
  | [] => ([], [])
  | c :: rest =>
    if c = ':' then ([], rest)
    else
      let r := splitColon rest
      (c :: r.1, r.2)

/-- Model of `re.split(r'[,&/]|\s+', left)` (line 138).  The Boolean state
records whether the scanner is inside a whitespace run (`\s+` is one
separator however long it is); `,`, `&`, `/` are single-character
separators and reset that state. -/
def splitTokensAux : Bool → Str → Str × List Str
  | _, [] => ([], [])
  | inSpace, c :: rest =>
    if c = ',' ∨ c = '&' ∨ c = '/' then
      let r := splitTokensAux false rest
      ([], r.1 :: r.2)
    else if isSpace c then
      if inSpace then splitTokensAux true rest
      else
        let r := splitTokensAux true rest
        ([], r.1 :: r.2)
    else
      let r := splitTokensAux false rest
      (c :: r.1, r.2)

/-- Splitting the left side of a colon chunk into candidate tokens. -/
def splitTokens (s : Str) : List Str :=
  (splitTokensAux false s).1 :: (splitTokensAux false s).2

/-- Search for the first match of `\(([^)]+)\)` (line 153): the first `(`
followed by at least one non-`)` character and then a `)`.  Returns the
text before that `(` and the group interior. -/
def findParen : Str → Option (Str × Str)
  | [] => none
  | c :: rest =>
    if c = '(' ∧ rest.takeWhile (fun d => decide (d ≠ ')')) ≠ [] ∧
        rest.dropWhile (fun d => decide (d ≠ ')')) ≠ [] then
      some ([], rest.takeWhile (fun d => decide (d ≠ ')')))
    else
      match findParen rest with
      | some pi => some (c :: pi.1, pi.2)
      | none => none

/-- Python substring test for a three-character pattern space, `sep`,
space — models `' - ' in chunk` and `' — ' in chunk` (line 163). -/
def containsDash (sep : Char) : Str → Bool
  | a :: b :: c :: rest =>
    decide (a = ' ' ∧ b = sep ∧ c = ' ') || containsDash sep (b :: c :: rest)
  | _ => false

/-- The shape guard of the dash strategy: `' - ' in chunk or ' — ' in chunk`. -/
def dashGuard (chunk : Str) : Bool :=
  containsDash '-' chunk || containsDash '—' chunk

/-- Model of `re.split(r'\s[-—]\s', chunk, maxsplit=1)` (line 164): split
at the first whitespace, dash-or-em-dash, whitespace occurrence; if none,
the whole string is the only part. -/
def splitDash : Str → List Str
  | a :: b :: c :: rest =>
    if isSpace a ∧ (b = '-' ∨ b = '—') ∧ isSpace c then [[], rest]
    else
      match splitDash (b :: c :: rest) with
      | [l, r] => [a :: l, r]
      | _ => [a :: b :: c :: rest]
  | s => [s]

/-- One row of the output `drug_interactions` relation:
`(drugbank-id, interacting_drugbank-id, effect)`; `effect` is `none` when
the fallback strategy stored Python `None` (line 175). -/
structure InteractionRecord where
  subject : Str
  object : Str
  effect : Option Str
deriving DecidableEq, Repr

/-- The colon strategy (lines 134-150): split at the first colon, trim the
right side as the shared effect, split the left side into tokens; each
nonempty trimmed token contributes one record whose object is the first
embedded identifier match, or the raw token itself when there is none. -/
def colonRecords (subj chunk : Str) : List InteractionRecord :=
  let lr := splitColon chunk
  let effect := strip lr.2
  (splitTokens lr.1).filterMap fun iid0 =>
    let iid := strip iid0
    if iid = [] then none
    else some ⟨subj, (findIds iid).headD iid, some effect⟩

/-- The fallback strategy (lines 172-175): every identifier match anywhere
in the chunk becomes a record with no effect. -/
def fallbackRecords (subj chunk : Str) : List InteractionRecord :=
  (findIds chunk).map fun i => ⟨subj, i, none⟩

/-- The strategy cascade applied to one trimmed chunk (lines 133-175),
with the same control flow as the source: colon, then parenthesis, then
dash (which falls through to the fallback when the split does not give two
parts), then fallback. -/
def processChunk (subj chunk : Str) : List InteractionRecord :=
  if ':' ∈ chunk then colonRecords subj chunk
  else
    match findParen chunk with
    | some pi => (findIds pi.1).map fun i => ⟨subj, i, some (strip pi.2)⟩
    | none =>
      if dashGuard chunk then
        match splitDash chunk with
        | [l, r] => (findIds l).map fun i => ⟨subj, i, some (strip r)⟩
        | _ => fallbackRecords subj chunk
      else fallbackRecords subj chunk

/-- The parenthetical strategy as a standalone function (lines 152-160). -/
def parenStrategy (subj chunk : Str) : List InteractionRecord :=
  match findParen chunk with
  | some pi => (findIds pi.1).map fun i => ⟨subj, i, some (strip pi.2)⟩
  | none => []

/-- The dash strategy as a standalone function (lines 162-170). -/
def dashStrategy (subj chunk : Str) : List InteractionRecord :=
  match splitDash chunk with
  | [l, r] => (findIds l).map fun i => ⟨subj, i, some (strip r)⟩
  | _ => []

/-- Processing of one chunk inside the row loop (lines 128-131): trim it,
drop it when empty, otherwise run the cascade. -/
def chunkRecords (subj ch0 : Str) : List InteractionRecord :=
  let ch := strip ch0
  if ch = [] then [] else processChunk subj ch

/-- Records produced from a row's chunk list. -/
def rowRecords (subj : Str) (cs : List Str) : List InteractionRecord :=
  (cs.map (chunkRecords subj)).flatten

/-- Parsing of one source row (lines 113-175): a missing or blank
`drug-interactions` field contributes nothing; otherwise the text is
chunked and each chunk run through the cascade. -/
def parseRow (subj : Str) (raw : Option Str) : List InteractionRecord :=
  match raw with
  | none => []
  | some text =>
    if strip text = [] then [] else rowRecords subj (chunksOf text)

/-- All records accumulated over all rows, in order. -/
def allInteractions (rows : List (Str × Option Str)) : List InteractionRecord :=
  (rows.map fun p => parseRow p.1 p.2).flatten

/-- The relational store: the `drugbank` table (rows of subject id and raw
interaction text) and the `drug_interactions` table; `none` means the
table does not exist. -/
structure Store where
  drugbank : Option (List (Str × Option Str))
  drug_interactions : Option (List InteractionRecord)
deriving DecidableEq, Repr

/-- The persistence step of `parse_interactions` (lines 177-182): when no
records were produced, print a notice and return without touching the
store; otherwise write the accumulated records over `drug_interactions`
with replace semantics. -/
def parse_interactions (rows : List (Str × Option Str)) (s : Store) : Store :=
  if allInteractions rows = [] then s
  else { s with drug_interactions := some (allInteractions rows) }

/-- The pipeline of `load_drugbank_data` restricted to its durable effects
(lines 66-90): write the input rows over the `drugbank` table with replace
semantics, then run `parse_interactions` on them. -/
def load_drugbank_data (rows : List (Str × Option Str)) (s : Store) : Store :=
  parse_interactions rows { s with drugbank := some rows }

/-! ### Helper lemmas -/

theorem isIdToken_ne_nil {a : Str} (h : isIdToken a = true) : a ≠ [] := by
  cases a with
  | nil => simp [isIdToken] at h
  | cons c t => exact List.cons_ne_nil c t

theorem idHeadMatch_isIdToken {s m : Str} (h : idHeadMatch s = some m) :
    isIdToken m = true := by
  match s with
  | [] => simp [idHeadMatch] at h
  | [c] => simp [idHeadMatch] at h
  | c1 :: c2 :: rest2 =>
    simp only [idHeadMatch] at h
    split at h
    · rename_i hcond
      obtain ⟨h1, h2, h3, _⟩ := hcond
      injection h with h
      subst h
      simp only [isIdToken, decide_eq_true_eq]
      refine ⟨h1, h2, h3, ?_⟩
      intro c hc
      exact List.mem_takeWhile_imp hc
    · exact absurd h (by simp)

theorem mem_findIdsAux {a : Str} :
    ∀ (s : Str) (b : Bool), a ∈ findIdsAux b s → isIdToken a = true := by
  intro s
  induction s with
  | nil => intro b h; simp [findIdsAux] at h
  | cons c1 rest ih =>
    intro b h
    unfold findIdsAux at h
    split at h
    · rename_i m hm
      rcases List.mem_cons.mp h with h | h
      · subst h
        rcases b with _ | _
        · simp only [Bool.false_eq_true, if_false] at hm
          exact idHeadMatch_isIdToken hm
        · simp at hm
      · exact ih true h
    · exact ih _ h

theorem mem_findIds {a s : Str} (h : a ∈ findIds s) : isIdToken a = true :=
  mem_findIdsAux s false h

theorem dash_split {c : Str} (h : dashGuard c = true) :
    ∃ l r, splitDash c = [l, r] := by
  induction c with
  | nil => simp [dashGuard, containsDash] at h
  | cons a t ih =>
    match t, ih with
    | [], _ => simp [dashGuard, containsDash] at h
    | [b], _ => simp [dashGuard, containsDash] at h
    | b :: d :: rest, ih =>
      by_cases hc : isSpace a ∧ (b = '-' ∨ b = '—') ∧ isSpace d
      · exact ⟨[], rest, by simp [splitDash, hc]⟩
      · have htail : dashGuard (b :: d :: rest) = true := by
          simp only [dashGuard, containsDash, Bool.or_eq_true, decide_eq_true_eq] at h ⊢
          rcases h with (h | h) | (h | h)
          · exact absurd ⟨by simp [isSpace, h.1], Or.inl h.2.1, by simp [isSpace, h.2.2]⟩ hc
          · exact Or.inl h
          · exact absurd ⟨by simp [isSpace, h.1], Or.inr h.2.1, by simp [isSpace, h.2.2]⟩ hc
          · exact Or.inr h
        obtain ⟨l, r, hlr⟩ := ih htail
        refine ⟨a :: l, r, ?_⟩
        simp only [splitDash, if_neg hc, hlr]

theorem splitCharsAux_of_none {p : Char → Bool} {t : Str}
    (h : ∀ c ∈ t, p c = false) : splitCharsAux p t = (t, []) := by
  induction t with
  | nil => rfl
  | cons c rest ih =>
    have hc := h c (List.mem_cons_self c rest)
    have hrest := ih fun d hd => h d (List.mem_cons_of_mem c hd)
    simp [splitCharsAux, hrest, hc]

theorem dropWhile_head_false {p : Char → Bool} {l : Str} {e : Char} {tl : Str}
    (h : l.dropWhile p = e :: tl) : p e = false := by
  induction l with
  | nil => simp [List.dropWhile] at h
  | cons c rest ih =>
    rw [List.dropWhile_cons] at h
    split at h
    · exact ih h
    · rename_i hp
      injection h with h1 _
      subst h1
      simpa using hp

/-! ### Claim theorems -/

/-- C5: for any row whose subject identifier is non-empty and whose raw
text is exactly `"DB00316:Increased bleeding risk,DB00635:Sedation"`, the
engine yields exactly the two records
`(subject, DB00316, "Increased bleeding risk")` and
`(subject, DB00635, "Sedation")`, in that order. -/
theorem C5_colon_two_records (subj : Str) (h : subj ≠ []) :
    parseRow subj (some ("DB00316:Increased bleeding risk,DB00635:Sedation".toList)) =
      [⟨subj, "DB00316".toList, some ("Increased bleeding risk".toList)⟩,
       ⟨subj, "DB00635".toList, some ("Sedation".toList)⟩] := rfl

/-- Witness for C5 at the concrete subject `"DB1"`. -/
theorem C5_colon_two_records_witness :
    parseRow ("DB1".toList) (some ("DB00316:Increased bleeding risk,DB00635:Sedation".toList)) =
      [⟨"DB1".toList, "DB00316".toList, some ("Increased bleeding risk".toList)⟩,
       ⟨"DB1".toList, "DB00635".toList, some ("Sedation".toList)⟩] :=
  C5_colon_two_records ("DB1".toList) (by decide)

/-- C6: for any row with raw text exactly `"DB00316 DB00635 (QT prolongation)"`,
the engine yields exactly two records sharing the effect `"QT prolongation"`,
with object ids `DB00316` and `DB00635`, taken in order of appearance from
the text preceding the opening parenthesis. -/
theorem C6_paren_two_records (subj : Str) :
    parseRow subj (some ("DB00316 DB00635 (QT prolongation)".toList)) =
      [⟨subj, "DB00316".toList, some ("QT prolongation".toList)⟩,
       ⟨subj, "DB00635".toList, some ("QT prolongation".toList)⟩] := rfl

/-- C7: for any row with raw text exactly `"DB00316 - Hypotension"`, the
engine yields exactly one record `(subject, DB00316, "Hypotension")`: the
chunk is split at the first space-dash-space separator, identifiers come
from the left part and the trimmed right part is the effect. -/
theorem C7_dash_one_record (subj : Str) :
    parseRow subj (some ("DB00316 - Hypotension".toList)) =
      [⟨subj, "DB00316".toList, some ("Hypotension".toList)⟩] := rfl

/-- C9: running the pipeline twice with identical input rows over the same
destination store yields an identical persisted state (idempotence), and
whenever any record is produced the stored `drug_interactions` relation is
exactly the freshly accumulated records — independent of what was stored
before, i.e. a full replace, never an append or merge. -/
theorem C9_idempotent :
    (∀ (rows : List (Str × Option Str)) (s : Store),
      load_drugbank_data rows (load_drugbank_data rows s) = load_drugbank_data rows s) ∧
    (∀ (rows : List (Str × Option Str)) (s : Store),
      (load_drugbank_data rows s).drug_interactions =
        if allInteractions rows = [] then s.drug_interactions
        else some (allInteractions rows)) := by
  constructor
  · intro rows s
    simp only [load_drugbank_data, parse_interactions]
    split <;> rfl
  · intro rows s
    simp only [load_drugbank_data, parse_interactions]
    split <;> rfl

/-- C1 counterexample: the concrete row `("DB1", "aspirin: bad")` makes
the pipeline emit the record `(DB1, aspirin, bad)`, whose `object_id`
`"aspirin"` does not satisfy the identifier lexical pattern — refuting the
claim that `object_id` always satisfies it. -/
theorem C1_counterexample :
    allInteractions [("DB1".toList, some ("aspirin: bad".toList))] =
      [⟨"DB1".toList, "aspirin".toList, some ("bad".toList)⟩] ∧
    isIdToken ("aspirin".toList) = false := by
  exact ⟨rfl, by decide⟩

/-- C2 counterexample: with input rows producing zero records and a prior
stored `drug_interactions` relation, `parse_interactions` leaves the store
untouched instead of persisting an empty relation over the prior one. -/
theorem C2_counterexample :
    parse_interactions [("DB1".toList, some ("unspecified interaction".toList))]
        ⟨none, some [⟨"DB9".toList, "DB8".toList, none⟩]⟩ =
      ⟨none, some [⟨"DB9".toList, "DB8".toList, none⟩]⟩ ∧
    (some [(⟨"DB9".toList, "DB8".toList, none⟩ : InteractionRecord)] ≠
      some ([] : List InteractionRecord)) := by
  exact ⟨rfl, by decide⟩

/-- C3 counterexample: in `"x,db12"` there is no hard separator and the
comma is immediately followed by `"db12"`, a token matching the
case-insensitive identifier lexical pattern, yet the Chunker produces a
single chunk: the comma introduces no boundary, because the comma re-split
lookahead is case-sensitive. -/
theorem C3_counterexample :
    ("x,db12".toList).all (fun c => !hardSep c) = true ∧
    "x,db12".toList = 'x' :: ',' :: "db12".toList ∧
    isIdToken ("db12".toList) = true ∧
    chunksOf ("x,db12".toList) = ["x,db12".toList] := by
  exact ⟨by decide, rfl, by decide, rfl⟩

/-- C10 counterexample: the chunk `"a() DB1 (x)"` has no colon, contains a
parenthesized group, and every identifier-pattern match occurs after the
first opening parenthesis (no identifier occurs strictly before it), yet
the parenthetical strategy emits one record rather than zero: the text cut
happens at the first `(` that starts a matchable group `(x)`, not at the
first `(` character. -/
theorem C10_counterexample :
    (':' ∈ "a() DB1 (x)".toList → False) ∧
    (findParen ("a() DB1 (x)".toList)).isSome = true ∧
    findIds (("a() DB1 (x)".toList).takeWhile (fun d => decide (d ≠ '('))) = [] ∧
    processChunk ("S".toList) ("a() DB1 (x)".toList) =
      [⟨"S".toList, "DB1".toList, some ("x".toList)⟩] := by
  exact ⟨by decide, rfl, rfl, rfl⟩

/-- C4: the four strategies are tried in the fixed order colon form,
parenthetical form, dash form, fallback, and the first strategy whose
shape-guard matches consumes the chunk exclusively — in particular the
dash branch never falls through to the fallback, and a chunk containing
both a colon and a parenthesized group is handled only by the colon form. -/
theorem C4_first_match_wins (subj chunk : Str) :
    processChunk subj chunk =
      (if ':' ∈ chunk then colonRecords subj chunk
       else if (findParen chunk).isSome then parenStrategy subj chunk
       else if dashGuard chunk then dashStrategy subj chunk
       else fallbackRecords subj chunk) := by
  unfold processChunk
  by_cases hc : ':' ∈ chunk
  · simp [hc]
  · simp only [if_neg hc]
    cases hp : findParen chunk with
    | some pi => simp [parenStrategy, hp]
    | none =>
      simp only [hp, Option.isSome_none, Bool.false_eq_true, if_false]
      by_cases hd : dashGuard chunk = true
      · obtain ⟨l, r, hlr⟩ := dash_split hd
        simp [hd, dashStrategy, hlr]
      · simp only [Bool.not_eq_true] at hd
        simp [hd]

/-- C8: a trimmed chunk with no colon, no parenthesized group, no
space-surrounded dash and no identifier-pattern match produces zero
records, and since a row's records are the concatenation of its chunks'
records, such a chunk is silently dropped while the surrounding chunks are
processed unchanged. -/
theorem C8_unrecognized_chunk (subj chunk : Str)
    (hs : strip chunk = chunk)
    (h1 : ':' ∉ chunk)
    (h2 : findParen chunk = none)
    (h3 : dashGuard chunk = false)
    (h4 : findIds chunk = []) :
    processChunk subj chunk = [] ∧
    ∀ cs1 cs2 : List Str,
      rowRecords subj (cs1 ++ chunk :: cs2) =
        rowRecords subj cs1 ++ rowRecords subj cs2 := by
  have hpc : processChunk subj chunk = [] := by
    unfold processChunk
    rw [if_neg h1, h2]
    simp only [fallbackRecords]
    rw [if_neg (by simp [h3]), h4]
    rfl
  have hck : chunkRecords subj chunk = [] := by
    simp only [chunkRecords, hs]
    split
    · rfl
    · exact hpc
  refine ⟨hpc, fun cs1 cs2 => ?_⟩
  simp [rowRecords, hck]

/-- Witness for C8 at the chunk `"unspecified interaction"` between two
colon chunks. -/
theorem C8_unrecognized_chunk_witness :
    processChunk ("DB1".toList) ("unspecified interaction".toList) = [] ∧
    rowRecords ("DB1".toList)
        (["DB2:A".toList] ++ "unspecified interaction".toList :: ["DB3:B".toList]) =
      rowRecords ("DB1".toList) ["DB2:A".toList] ++
        rowRecords ("DB1".toList) ["DB3:B".toList] := by
  have h := C8_unrecognized_chunk ("DB1".toList) ("unspecified interaction".toList)
    (by decide) (by decide) (by decide) (by decide) (by decide)
  exact ⟨h.1, h.2 ["DB2:A".toList] ["DB3:B".toList]⟩

/-- C2 (amended): if, after processing every row, zero interaction records
were produced, nothing is written: the stored `drug_interactions` relation
— including any prior version — is left unchanged, the `drugbank` table is
still replaced by the input rows, and the run completes without error. -/
theorem C2_amended_no_write (rows : List (Str × Option Str)) (s : Store)
    (h : allInteractions rows = []) :
    (load_drugbank_data rows s).drug_interactions = s.drug_interactions ∧
    (load_drugbank_data rows s).drugbank = some rows ∧
    parse_interactions rows s = s := by
  simp [load_drugbank_data, parse_interactions, h]

/-- Witness for C2 (amended) at a concrete record-free input and a store
holding a prior relation. -/
theorem C2_amended_no_write_witness :
    (load_drugbank_data [("DB1".toList, some ("unspecified interaction".toList))]
        ⟨none, some [⟨"DB9".toList, "DB8".toList, none⟩]⟩).drug_interactions =
      some [⟨"DB9".toList, "DB8".toList, none⟩] ∧
    (load_drugbank_data [("DB1".toList, some ("unspecified interaction".toList))]
        ⟨none, some [⟨"DB9".toList, "DB8".toList, none⟩]⟩).drugbank =
      some [("DB1".toList, some ("unspecified interaction".toList))] := by
  have h := C2_amended_no_write [("DB1".toList, some ("unspecified interaction".toList))]
    ⟨none, some [⟨"DB9".toList, "DB8".toList, none⟩]⟩ rfl
  exact ⟨h.1, h.2.1⟩

theorem mem_map_findIds {subj x : Str} {e : Option Str} {r : InteractionRecord}
    (h : r ∈ (findIds x).map fun i => (⟨subj, i, e⟩ : InteractionRecord)) :
    r.subject = subj ∧ isIdToken r.object = true := by
  rw [List.mem_map] at h
  obtain ⟨i, hi, hr⟩ := h
  subst hr
  exact ⟨rfl, mem_findIds hi⟩

theorem mem_fallbackRecords {subj chunk : Str} {r : InteractionRecord}
    (h : r ∈ fallbackRecords subj chunk) :
    r.subject = subj ∧ isIdToken r.object = true := by
  unfold fallbackRecords at h
  exact mem_map_findIds h

theorem mem_colonRecords {subj chunk : Str} {r : InteractionRecord}
    (h : r ∈ colonRecords subj chunk) :
    r.subject = subj ∧ r.object ≠ [] ∧
      (isIdToken r.object = true ∨ findIds r.object = []) := by
  simp only [colonRecords, List.mem_filterMap] at h
  obtain ⟨iid0, _, hsome⟩ := h
  split at hsome
  · exact absurd hsome (by simp)
  · rename_i hnil
    injection hsome with hr
    subst hr
    refine ⟨rfl, ?_, ?_⟩
    · cases hf : findIds (strip iid0) with
      | nil => simpa [hf] using hnil
      | cons m t =>
        have hm : isIdToken m = true := mem_findIds (by rw [hf]; exact List.mem_cons_self m t)
        simpa [hf] using isIdToken_ne_nil hm
    · cases hf : findIds (strip iid0) with
      | nil => right; simp [hf]
      | cons m t =>
        left
        have hm : isIdToken m = true := mem_findIds (by rw [hf]; exact List.mem_cons_self m t)
        simpa [hf] using hm

theorem mem_processChunk {subj chunk : Str} {r : InteractionRecord}
    (h : r ∈ processChunk subj chunk) :
    r.subject = subj ∧ r.object ≠ [] ∧
      (isIdToken r.object = true ∨ findIds r.object = []) := by
  unfold processChunk at h
  split at h
  · exact mem_colonRecords h
  · split at h
    · have hm := mem_map_findIds h
      exact ⟨hm.1, isIdToken_ne_nil hm.2, Or.inl hm.2⟩
    · split at h
      · split at h
        · have hm := mem_map_findIds h
          exact ⟨hm.1, isIdToken_ne_nil hm.2, Or.inl hm.2⟩
        · have hm := mem_fallbackRecords h
          exact ⟨hm.1, isIdToken_ne_nil hm.2, Or.inl hm.2⟩
      · have hm := mem_fallbackRecords h
        exact ⟨hm.1, isIdToken_ne_nil hm.2, Or.inl hm.2⟩

theorem mem_parseRow {subj : Str} {raw : Option Str} {r : InteractionRecord}
    (h : r ∈ parseRow subj raw) :
    r.subject = subj ∧ r.object ≠ [] ∧
      (isIdToken r.object = true ∨ findIds r.object = []) := by
  unfold parseRow at h
  split at h
  · exact absurd h (by simp)
  · split at h
    · exact absurd h (by simp)
    · simp only [rowRecords, List.mem_flatten, List.mem_map] at h
      obtain ⟨l, ⟨ch0, _, hl⟩, hr⟩ := h
      subst hl
      simp only [chunkRecords] at hr
      split at hr
      · exact absurd hr (by simp)
      · exact mem_processChunk hr

/-- C1 (amended): for every record emitted by the pipeline, the
`subject_id` is the source row's subject identifier verbatim (hence
non-empty whenever the row's subject identifier is non-empty), the
`object_id` is non-empty, and the `object_id` either satisfies the
identifier lexical pattern or — when the colon strategy kept a raw left
token verbatim — contains no identifier-pattern match at all. -/
theorem C1_amended_record_shape (rows : List (Str × Option Str))
    (r : InteractionRecord) (h : r ∈ allInteractions rows) :
    (∃ p ∈ rows, r.subject = p.1) ∧ r.object ≠ [] ∧
      (isIdToken r.object = true ∨ findIds r.object = []) := by
  simp only [allInteractions, List.mem_flatten, List.mem_map] at h
  obtain ⟨l, ⟨p, hp, hl⟩, hr⟩ := h
  subst hl
  have hm := mem_parseRow hr
  exact ⟨⟨p, hp, hm.1⟩, hm.2⟩

/-- Witness for C1 (amended) at the row `("DB1", "DB2: x")`. -/
theorem C1_amended_record_shape_witness :
    (∃ p ∈ [("DB1".toList, some ("DB2: x".toList))],
      (⟨"DB1".toList, "DB2".toList, some ("x".toList)⟩ : InteractionRecord).subject = p.1) ∧
    (⟨"DB1".toList, "DB2".toList, some ("x".toList)⟩ : InteractionRecord).object ≠ [] ∧
    (isIdToken (⟨"DB1".toList, "DB2".toList, some ("x".toList)⟩ : InteractionRecord).object = true ∨
      findIds (⟨"DB1".toList, "DB2".toList, some ("x".toList)⟩ : InteractionRecord).object = []) :=
  C1_amended_record_shape [("DB1".toList, some ("DB2: x".toList))]
    ⟨"DB1".toList, "DB2".toList, some ("x".toList)⟩ (by decide)

theorem splitCommaAux_no_split : ∀ t : Str,
    (∀ i : Nat, ∀ hi : i < t.length, t[i] = ',' →
      commaLookahead (t.drop (i+1)) = false) →
    splitCommaAux t = (t, []) := by
  intro t
  induction t with
  | nil => intro _; rfl
  | cons c rest ih =>
    intro hyp
    have hnc : ¬ (c = ',' ∧ commaLookahead rest) := by
      rintro ⟨rfl, hl⟩
      have h0 := hyp 0 (by simp) (by simp)
      simp only [List.drop_succ_cons, List.drop_zero] at h0
      exact absurd hl (by simp [h0])
    have hrest := ih fun i hi hcomma => by
      have hstep := hyp (i+1) (by simpa using Nat.succ_lt_succ hi) (by simpa using hcomma)
      simpa using hstep
    simp [splitCommaAux, hrest, hnc]

theorem splitCommaAux_split_at : ∀ u v : Str, commaLookahead v = true →
    (∀ i : Nat, ∀ hi : i < u.length, u[i] = ',' →
      commaLookahead (u.drop (i+1) ++ ',' :: v) = false) →
    splitCommaAux (u ++ ',' :: v) =
      (u, (splitCommaAux v).1 :: (splitCommaAux v).2) := by
  intro u
  induction u with
  | nil =>
    intro v hv _
    simp [splitCommaAux, hv]
  | cons a u' ih =>
    intro v hv hyp
    have hna : ¬ (a = ',' ∧ commaLookahead (u' ++ ',' :: v)) := by
      rintro ⟨rfl, hl⟩
      have h0 := hyp 0 (by simp) (by simp)
      simp only [List.drop_succ_cons, List.drop_zero] at h0
      exact absurd hl (by simp [h0])
    have hrec := ih v hv fun i hi hcomma => by
      have hstep := hyp (i+1) (by simpa using Nat.succ_lt_succ hi) (by simpa using hcomma)
      simpa using hstep
    simp only [List.cons_append, splitCommaAux, List.append_eq, hrec]
    rw [if_neg hna]

theorem chunksOf_no_hardSep {t : Str} (h : ∀ c ∈ t, hardSep c = false) :
    chunksOf t = splitCommaDB t := by
  have hsp := splitCharsAux_of_none h
  simp [chunksOf, splitChars, hsp]

/-- C3 (amended): for text with no hard separator the Chunker re-splits on
commas, but the boundary criterion is the source's lookahead: optional
whitespace, then the uppercase letters `DB` (case-sensitively — the inline
pattern is compiled without `re.IGNORECASE`), then at least one digit,
with no word-boundary requirement after the digits.  A comma whose suffix
fails this lookahead never introduces a boundary, and the earliest comma
whose suffix satisfies it always does. -/
theorem C3_amended_comma_split :
    (∀ t : Str, (∀ c ∈ t, hardSep c = false) → chunksOf t = splitCommaDB t) ∧
    (∀ t : Str,
      (∀ i : Nat, ∀ hi : i < t.length, t[i] = ',' →
        commaLookahead (t.drop (i+1)) = false) →
      splitCommaDB t = [t]) ∧
    (∀ u v : Str, commaLookahead v = true →
      (∀ i : Nat, ∀ hi : i < u.length, u[i] = ',' →
        commaLookahead (u.drop (i+1) ++ ',' :: v) = false) →
      splitCommaDB (u ++ ',' :: v) = u :: splitCommaDB v) := by
  refine ⟨fun t h => chunksOf_no_hardSep h, fun t h => ?_, fun u v hv h => ?_⟩
  · simp [splitCommaDB, splitCommaAux_no_split t h]
  · simp [splitCommaDB, splitCommaAux_split_at u v hv h]

/-- Witness for C3 (amended): a comma before a lowercase token does not
split, a comma before `DB` and digits splits, and without hard separators
the Chunker is the comma re-split. -/
theorem C3_amended_comma_split_witness :
    chunksOf ("a b,DB12 c".toList) = splitCommaDB ("a b,DB12 c".toList) ∧
    splitCommaDB ("a,b".toList) = ["a,b".toList] ∧
    splitCommaDB ("ab".toList ++ ',' :: "DB12 c".toList) =
      "ab".toList :: splitCommaDB ("DB12 c".toList) :=
  ⟨C3_amended_comma_split.1 _ (by decide),
   C3_amended_comma_split.2.1 _ (by decide),
   C3_amended_comma_split.2.2 _ _ (by decide) (by decide)⟩

theorem findParen_decomp : ∀ {c pre inner : Str},
    findParen c = some (pre, inner) →
    ∃ rest, c = pre ++ '(' :: (inner ++ ')' :: rest) ∧ inner ≠ [] ∧
      ∀ d ∈ inner, d ≠ ')' := by
  intro c
  induction c with
  | nil => intro pre inner h; simp [findParen] at h
  | cons a rest ih =>
    intro pre inner h
    unfold findParen at h
    split at h
    · rename_i hcond
      obtain ⟨ha, ht, hd⟩ := hcond
      injection h with h
      injection h with hpre hinner
      subst hpre; subst hinner; subst ha
      obtain ⟨e, tl, he⟩ : ∃ e tl,
          rest.dropWhile (fun d => decide (d ≠ ')')) = e :: tl := by
        cases hcase : rest.dropWhile (fun d => decide (d ≠ ')')) with
        | nil => exact absurd hcase hd
        | cons e tl => exact ⟨e, tl, rfl⟩
      have he' : e = ')' := by
        have hf := dropWhile_head_false he
        simpa using hf
      refine ⟨tl, ?_, ht, ?_⟩
      · have hsplit := List.takeWhile_append_dropWhile
          (p := fun d => decide (d ≠ ')')) (l := rest)
        rw [he, he'] at hsplit
        simp only [List.nil_append]
        exact congrArg (fun l => '(' :: l) hsplit.symm
      · intro d hdm
        have hp := List.mem_takeWhile_imp hdm
        simpa using hp
    · revert h
      cases hrec : findParen rest with
      | some pi =>
        intro h
        injection h with h
        injection h with hpre hinner
        subst hinner
        obtain ⟨tl, hc, hne, hmem⟩ := ih hrec
        subst hpre
        exact ⟨tl, by simp [hc], hne, hmem⟩
      | none => intro h; exact absurd h (by simp)

/-- C10 (amended): for a chunk with no colon on which the parenthetical
strategy fires, the chunk decomposes as the text before the opening
parenthesis of the first matchable group — the first `(` followed by at
least one non-`)` character and then a `)` — and the strategy emits
exactly one record per identifier-pattern match in that preceding text
(the fallback is never applied); identifiers at or after that parenthesis
yield nothing.  The cut is not at the first `(` character in general. -/
theorem C10_amended_paren (subj chunk pre inner : Str)
    (h1 : ':' ∉ chunk) (h2 : findParen chunk = some (pre, inner)) :
    (∃ rest, chunk = pre ++ '(' :: (inner ++ ')' :: rest) ∧ inner ≠ [] ∧
      ∀ d ∈ inner, d ≠ ')') ∧
    processChunk subj chunk =
      (findIds pre).map fun i => ⟨subj, i, some (strip inner)⟩ := by
  refine ⟨findParen_decomp h2, ?_⟩
  unfold processChunk
  rw [if_neg h1, h2]

/-- Witness for C10 (amended) at the chunk `"DB7 x (flushing)"`. -/
theorem C10_amended_paren_witness :
    (∃ rest, "DB7 x (flushing)".toList =
      "DB7 x ".toList ++ '(' :: ("flushing".toList ++ ')' :: rest) ∧
      "flushing".toList ≠ [] ∧ ∀ d ∈ "flushing".toList, d ≠ ')') ∧
    processChunk ("S".toList) ("DB7 x (flushing)".toList) =
      (findIds ("DB7 x ".toList)).map fun i =>
        ⟨"S".toList, i, some (strip ("flushing".toList))⟩ :=
  C10_amended_paren ("S".toList) ("DB7 x (flushing)".toList)
    ("DB7 x ".toList) ("flushing".toList) (by decide) rfl

end Polypharm
